import Mathlib

/-
Verification development for the FindQC spider service.

The Python sources under service_spider/ are shallowly embedded as pure
Lean functions.  Wall-clock instants and upstream QC timestamps are
modelled as rational numbers of seconds since the Unix epoch (the code
converts timestamps with datetime.fromtimestamp and compares datetimes;
both sides are represented here on the same rational timeline, and the
float division by 1000 is exact rational division; datetime.fromtimestamp
is the identity on that timeline and is modelled as total, eliding the
OSError it can raise on out-of-range values, which the source only logs
and skips).  Database rows are records, the ORM session is a
committed/pending pair, and the message queue is a list of emitted
events.
-/

namespace FindQC

attribute [local semireducible] Rat.mul Rat.add Rat.sub Rat.inv

/-- timedelta(days=30) expressed in seconds. -/
def thirtyDays : ℚ := 30 * 86400

/-- The 10^10 cutoff used by the source to distinguish second-valued from
millisecond-valued timestamps. -/
def tenBillion : ℚ := 10 ^ 10

/-- Timestamp unit normalization from prepare_product_data: a value greater
than 10^10 is treated as milliseconds and divided by 1000, otherwise it is
taken as seconds. -/
def normalizeTs (t : ℚ) : ℚ :=
  if tenBillion < t then t / 1000 else t

/-- The Python builtin max over a list, as used on all_qc_times: none on the
empty list, otherwise the left fold of the binary max over the tail. -/
def pyMax : List ℚ → Option ℚ
  | [] => none
  | t :: ts => some (ts.foldl max t)

/-- last_qc_time as computed by prepare_product_data: the maximum RAW
timestamp is taken first and only that single maximum is unit-normalized. -/
def lastQcTimeOf (ts : List ℚ) : Option ℚ :=
  (pyMax ts).map normalizeTs

/-- Modelled from the spec: the sentence says lastQcTime is the max of the
NORMALIZED timestamps (null if none); each timestamp is normalized first
and the maximum is taken afterwards.  Kept separate from lastQcTimeOf,
which embeds the source, so the two can be compared. -/
def specLastQcTimeOf (ts : List ℚ) : Option ℚ :=
  pyMax (ts.map normalizeTs)

/-- The qc_count_30days loop of prepare_product_data: every collected raw
timestamp is unit-normalized individually and counted when it falls within
the trailing 30 day window. -/
def qcCount30Days (now : ℚ) (ts : List ℚ) : ℕ :=
  (ts.filter (fun t => now - thirtyDays ≤ normalizeTs t)).length

/-- The source guards the count with "if last_qc_time and all_qc_times". -/
def qcCount30Pre (now : ℚ) (lastQc : Option ℚ) (ts : List ℚ) : ℕ :=
  match lastQc, ts with
  | some _, _ :: _ => qcCount30Days now ts
  | _, _ => 0

/-- One entry of a qcList: optional url and optional raw timestamp. -/
structure QcEntry where
  url : Option String
  time : Option ℚ
deriving DecidableEq

/-- One entry of an optionList inside propsList. -/
structure OptionEntry where
  picUrl : Option String
deriving DecidableEq

/-- One entry of propsList. -/
structure PropEntry where
  optionList : List OptionEntry
deriving DecidableEq

/-- The detail payload found at detail_response.data.data. -/
structure DetailData where
  price : Option String
  weight : Option ℚ
  picList : List String
  propsList : List PropEntry
  qcList : List QcEntry
deriving DecidableEq

/-- The decoded detail response; detailData stands for .data.data. -/
structure DetailResponse where
  detailData : DetailData
deriving DecidableEq

/-- One entry of atlasList. -/
structure AtlasItem where
  qcList : List QcEntry
deriving DecidableEq

/-- The decoded atlas response; atlasList stands for .data.atlasList. -/
structure AtlasResponse where
  atlasList : List AtlasItem
  hasMore : Bool
deriving DecidableEq

/-- Pythonic truthiness filter on a qc url: present and non-empty. -/
def qcUrlOf (qc : QcEntry) : Option String :=
  match qc.url with
  | some u => if u = "" then none else some u
  | none => none

/-- Pythonic truthiness filter on an option picUrl: present and non-empty. -/
def optionPicUrl (o : OptionEntry) : Option String :=
  match o.picUrl with
  | some u => if u = "" then none else some u
  | none => none

/-- sku_images: flattened option picture urls from the props/option tree. -/
def skuImagesOf (d : DetailData) : List String :=
  (d.propsList.map (fun p => p.optionList.filterMap optionPicUrl)).flatten

/-- qc_images seeded from the detail qcList (urls appended, no dedup). -/
def detailQcImages (d : DetailData) : List String :=
  d.qcList.filterMap qcUrlOf

/-- The atlas pass over qc_images: each atlas qc url is appended only when
it is not already present (dedup preserving first-seen order). -/
def appendAtlasQcImages (acc : List String) (responses : List AtlasResponse) : List String :=
  responses.foldl (fun a resp =>
    resp.atlasList.foldl (fun a2 item =>
      item.qcList.foldl (fun a3 qc =>
        match qcUrlOf qc with
        | some u => if u ∈ a3 then a3 else a3 ++ [u]
        | none => a3) a2) a) acc

/-- The full qc_images list: detail urls first, then deduplicated atlas urls. -/
def collectQcImages (d : DetailData) (atlas : List AtlasResponse) : List String :=
  appendAtlasQcImages (detailQcImages d) atlas

/-- The timestamps of one qcList (entries whose time is not None). -/
def qcTimesOfList (l : List QcEntry) : List ℚ :=
  l.filterMap (fun qc => qc.time)

/-- all_qc_times: detail qcList timestamps first, then every atlas qcList
timestamp in response order (appended independently of url dedup). -/
def collectQcTimes (d : DetailData) (atlas : List AtlasResponse) : List ℚ :=
  qcTimesOfList d.qcList ++
    (atlas.map (fun resp =>
      (resp.atlasList.map (fun item => qcTimesOfList item.qcList)).flatten)).flatten

/-- The image_urls JSON bundle. -/
structure ImageUrls where
  qc_images : List String
  main_images : List String
  sku_images : List String
deriving DecidableEq

/-- The product_data dictionary built by prepare_product_data. -/
structure ProductData where
  findqc_id : ℤ
  itemId : String
  mallType : String
  categoryId : Option ℤ
  price : Option String
  weight : Option ℚ
  image_urls : ImageUrls
  last_qc_time : Option ℚ
  qc_count_30days : ℕ
  status : ℕ
deriving DecidableEq

/-- The product_data dictionary as assembled at the end of
prepare_product_data (reached only when should_save is true). -/
def buildProductData (now : ℚ) (findqc_id : ℤ) (item_id mall_type : String)
    (category_id : Option ℤ) (d : DetailData) (atlas : List AtlasResponse) :
    ProductData :=
  { findqc_id := findqc_id
    itemId := item_id
    mallType := mall_type
    categoryId := category_id
    price := d.price
    weight := d.weight
    image_urls :=
      { qc_images := collectQcImages d atlas
        main_images := d.picList
        sku_images := skuImagesOf d }
    last_qc_time := lastQcTimeOf (collectQcTimes d atlas)
    qc_count_30days :=
      qcCount30Pre now (lastQcTimeOf (collectQcTimes d atlas)) (collectQcTimes d atlas)
    status := 0 }

/-- The should_save cascade of prepare_product_data: false when there is no
qc image, false when no timestamp could be collected, false when the newest
normalized timestamp is strictly older than 30 days before now. -/
def shouldSave (now : ℚ) (d : DetailData) (atlas : List AtlasResponse) : Bool :=
  if collectQcImages d atlas = [] then false
  else
    match lastQcTimeOf (collectQcTimes d atlas) with
    | none => false
    | some t => ! decide (t < now - thirtyDays)

/-- ProductDBService.prepare_product_data: extracts and assembles the
product data from the detail and atlas responses, returning the data and
the should_save flag; (none, false) when the freshness gate rejects. -/
def prepare_product_data (now : ℚ) (findqc_id : ℤ) (item_id mall_type : String)
    (category_id : Option ℤ) (detail_response : DetailResponse)
    (atlas_responses : List AtlasResponse) : Option ProductData × Bool :=
  let d := detail_response.detailData
  if shouldSave now d atlas_responses then
    (some (buildProductData now findqc_id item_id mall_type category_id d atlas_responses),
      true)
  else
    (none, false)

/-- One row of t_products. -/
structure ProductRow where
  id : ℕ
  findqc_id : ℤ
  itemId : String
  mallType : String
  categoryId : Option ℤ
  price : Option String
  weight : Option ℚ
  image_urls : ImageUrls
  last_qc_time : Option ℚ
  qc_count_30days : ℕ
  update_task_id : Option ℤ
  last_update : Option ℚ
  status : ℕ
deriving DecidableEq

/-- One row of t_tasks_products. -/
structure TaskRow where
  id : ℕ
  findqc_id : ℤ
  update_task_id : ℤ
  status : ℕ
  created_at : ℚ
deriving DecidableEq

/-- The database content: the two tables the spider touches. -/
structure DBState where
  products : List ProductRow
  tasks : List TaskRow
deriving DecidableEq

/-- An ORM session: committed is what the database durably holds, pending
additionally contains flushed but uncommitted changes. -/
structure Session where
  committed : DBState
  pending : DBState
deriving DecidableEq

/-- session.commit(). -/
def Session.commit (s : Session) : Session :=
  { committed := s.pending, pending := s.pending }

/-- session.rollback(): uncommitted changes are discarded. -/
def Session.rollback (s : Session) : Session :=
  { committed := s.committed, pending := s.committed }

/-- The select by findqc_id (scalar_one_or_none over the unique column). -/
def findProduct (fid : ℤ) (products : List ProductRow) : Option ProductRow :=
  products.find? (fun r => r.findqc_id == fid)

/-- The ORM in-place mutation of the row selected by findqc_id. -/
def updateProductRow (fid : ℤ) (row : ProductRow) (products : List ProductRow) :
    List ProductRow :=
  products.map (fun r => if r.findqc_id == fid then row else r)

/-- The operation type returned by check_and_update_existing_product. -/
inductive OpType where
  | not_exists
  | exists_updated
  | exists_deleted
deriving DecidableEq

/-- ProductDBService.check_and_update_existing_product: looks the product
up by findqc_id; when absent reports not_exists; when present it either
soft-deletes (last_qc_time missing or older than 30 days: status becomes 1
and last_update is refreshed) or refreshes only the QC fields. -/
def check_and_update_existing_product (now : ℚ) (fid : ℤ)
    (last_qc_time : Option ℚ) (qc_count_30days : ℕ)
    (products : List ProductRow) : List ProductRow × Option ProductRow × OpType :=
  match findProduct fid products with
  | none => (products, none, .not_exists)
  | some p =>
    match last_qc_time with
    | none =>
      let p2 := { p with status := 1, last_update := some now }
      (updateProductRow fid p2 products, some p2, .exists_deleted)
    | some t =>
      if now - thirtyDays ≤ t then
        let p2 := { p with last_qc_time := some t,
                           qc_count_30days := qc_count_30days,
                           last_update := some now }
        (updateProductRow fid p2 products, some p2, .exists_updated)
      else
        let p2 := { p with status := 1, last_update := some now }
        (updateProductRow fid p2 products, some p2, .exists_deleted)

/-- ProductDBService.save_or_update_product: inserts the new product row
with last_update set to now; the id is the autoincrement key. -/
def save_or_update_product (now : ℚ) (pd : ProductData) (update_task_id : ℤ)
    (db : DBState) : DBState × ProductRow :=
  let row : ProductRow :=
    { id := db.products.length + 1
      findqc_id := pd.findqc_id
      itemId := pd.itemId
      mallType := pd.mallType
      categoryId := pd.categoryId
      price := pd.price
      weight := pd.weight
      image_urls := pd.image_urls
      last_qc_time := pd.last_qc_time
      qc_count_30days := pd.qc_count_30days
      update_task_id := some update_task_id
      last_update := some now
      status := pd.status }
  ({ db with products := db.products ++ [row] }, row)

/-- ProductDBService.create_task_record: inserts the task row. -/
def create_task_record (now : ℚ) (fid : ℤ) (update_task_id : ℤ) (status : ℕ)
    (db : DBState) : DBState × TaskRow :=
  let task : TaskRow :=
    { id := db.tasks.length + 1
      findqc_id := fid
      update_task_id := update_task_id
      status := status
      created_at := now }
  ({ db with tasks := db.tasks ++ [task] }, task)

/-- One message published to the product.new routing key. -/
structure Event where
  task_id : ℤ
  findqc_id : ℤ
  product_id : ℕ
  itemId : String
  mallType : String
deriving DecidableEq

/-- Externally visible database and broker actions, in program order. -/
inductive DbAction where
  | flush
  | commit
  | publish (findqc_id : ℤ)
deriving DecidableEq

/-- An item summary from the category list endpoint. -/
structure ItemSummary where
  id : Option ℤ
  itemId : String
  mallType : String
deriving DecidableEq

/-- The outcome of SpiderService.process_single_product: the session after
the call, the events published, the action trace, and the operation type
of the branch taken (none when the item was skipped before the lookup). -/
structure ProcResult where
  sess : Session
  events : List Event
  trace : List DbAction
  op : Option OpType
deriving DecidableEq

/-- SpiderService.process_single_product on the success path: guard on the
summary fields, prepare the product data, return early when the freshness
gate rejects, otherwise dispatch on check_and_update_existing_product; only
the not_exists branch inserts the product and task rows and publishes the
new-product event, and it publishes only after the commit. -/
def process_single_product (now : ℚ) (update_task_id : ℤ)
    (item_summary : ItemSummary) (category_id : Option ℤ)
    (detail_response : DetailResponse) (atlas_responses : List AtlasResponse)
    (sess : Session) : ProcResult :=
  match item_summary.id with
  | none => ⟨sess, [], [], none⟩
  | some fid =>
    if fid = 0 ∨ item_summary.itemId = "" ∨ item_summary.mallType = "" then
      ⟨sess, [], [], none⟩
    else
      match prepare_product_data now fid item_summary.itemId item_summary.mallType
          category_id detail_response atlas_responses with
      | (none, _) => ⟨sess, [], [], none⟩
      | (some pd, _) =>
        match check_and_update_existing_product now fid pd.last_qc_time
            pd.qc_count_30days sess.pending.products with
        | (products2, _, .exists_deleted) =>
          let sess2 := Session.commit
            { committed := sess.committed
              pending := { sess.pending with products := products2 } }
          ⟨sess2, [], [.flush, .commit], some .exists_deleted⟩
        | (products2, _, .exists_updated) =>
          let sess2 := Session.commit
            { committed := sess.committed
              pending := { sess.pending with products := products2 } }
          ⟨sess2, [], [.flush, .commit], some .exists_updated⟩
        | (_, _, .not_exists) =>
          let dbrow := save_or_update_product now pd update_task_id sess.pending
          let db3 := (create_task_record now fid update_task_id 0 dbrow.1).1
          let sess2 := Session.commit { committed := sess.committed, pending := db3 }
          ⟨sess2,
            [⟨update_task_id, fid, dbrow.2.id, item_summary.itemId,
              item_summary.mallType⟩],
            [.flush, .flush, .commit, .publish fid], some .not_exists⟩

/-- The outcome of one attempt of a wrapped API call: success, an
httpx.HTTPStatusError with its status code, one of the retryable network
error classes, or any other exception (for example a JSON decode error). -/
inductive ApiOutcome (α : Type) where
  | success (value : α)
  | httpStatus (code : ℕ)
  | netError
  | otherError
deriving DecidableEq

/-- The failures the wrapper sleeps and retries on: HTTP 5xx, HTTP 429 and
the network error classes. -/
def retryableFailure {α : Type} : ApiOutcome α → Bool
  | .success _ => false
  | .httpStatus code => decide (500 ≤ code) || decide (code = 429)
  | .netError => true
  | .otherError => false

/-- The failures the wrapper raises immediately: HTTP status errors other
than 5xx and 429, and any other exception. -/
def terminalFailure {α : Type} : ApiOutcome α → Bool
  | .success _ => false
  | .httpStatus code => decide (code < 500) && decide (code ≠ 429)
  | .netError => false
  | .otherError => true

/-- How the wrapped call finishes: a returned value, a raised exception, or
the implicit None return when the attempt loop body never runs. -/
inductive RetryOutcome (α : Type) where
  | ok (value : α)
  | raised (err : ApiOutcome α)
  | noneResult
deriving DecidableEq

/-- The observable result of one wrapped call: its outcome, the index of
the attempt it finished on, and the sleeps performed, in order. -/
structure RetryRun (α : Type) where
  outcome : RetryOutcome α
  attempts : ℕ
  sleeps : List ℚ
deriving DecidableEq

/-- The attempt loop of async_retry: remaining counts the attempts still
allowed, attempt is the 1-based index of the current one.  A 5xx or 429
status and every network error sleep for the current delay, multiply it by
the backoff and continue while attempt is below max_attempts, and re-raise
on the final attempt; any other status or exception raises at once. -/
def asyncRetryLoop {α : Type} (maxAttempts : ℕ) (backoff : ℚ)
    (outcomes : ℕ → ApiOutcome α) :
    ℕ → ℕ → ℚ → List ℚ → Option (ApiOutcome α) → RetryRun α
  | 0, attempt, _, sleeps, lastExc =>
    match lastExc with
    | some e => ⟨.raised e, attempt - 1, sleeps⟩
    | none => ⟨.noneResult, attempt - 1, sleeps⟩
  | remaining + 1, attempt, currentDelay, sleeps, _ =>
    match outcomes attempt with
    | .success v => ⟨.ok v, attempt, sleeps⟩
    | .httpStatus code =>
      if 500 ≤ code then
        if attempt < maxAttempts then
          asyncRetryLoop maxAttempts backoff outcomes remaining (attempt + 1)
            (currentDelay * backoff) (sleeps ++ [currentDelay])
            (some (.httpStatus code))
        else ⟨.raised (.httpStatus code), attempt, sleeps⟩
      else if code = 429 then
        if attempt < maxAttempts then
          asyncRetryLoop maxAttempts backoff outcomes remaining (attempt + 1)
            (currentDelay * backoff) (sleeps ++ [currentDelay])
            (some (.httpStatus code))
        else ⟨.raised (.httpStatus code), attempt, sleeps⟩
      else ⟨.raised (.httpStatus code), attempt, sleeps⟩
    | .netError =>
      if attempt < maxAttempts then
        asyncRetryLoop maxAttempts backoff outcomes remaining (attempt + 1)
          (currentDelay * backoff) (sleeps ++ [currentDelay]) (some .netError)
      else ⟨.raised .netError, attempt, sleeps⟩
    | .otherError => ⟨.raised .otherError, attempt, sleeps⟩

/-- The async_retry decorator applied to a call whose attempt number i
produces outcomes i: runs the attempt loop from attempt 1 with the
configured initial delay. -/
def async_retry {α : Type} (maxAttempts : ℕ) (delay backoff : ℚ)
    (outcomes : ℕ → ApiOutcome α) : RetryRun α :=
  asyncRetryLoop maxAttempts backoff outcomes maxAttempts 1 delay [] none

/-- One decoded category page response: the item list at .data.data and the
hasMore flag at .data.hasMore. -/
structure PageResp where
  items : List ItemSummary
  hasMore : Bool

/-- The guard "max_products and total_products >= max_products": the cap is
active only when max_products is present and non-zero (Python truthiness). -/
def capReached (maxP : Option ℕ) (total : ℕ) : Bool :=
  match maxP with
  | some m => (! decide (m = 0)) && decide (m ≤ total)
  | none => false

/-- The inner item loop of fetch_category_products, counting successfully
processed items: before every item the cap is checked and the loop breaks
when it is reached. -/
def pageInner (maxP : Option ℕ) : List ItemSummary → ℕ → ℕ
  | [], total => total
  | _ :: rest, total =>
    if capReached maxP total then total
    else pageInner maxP rest (total + 1)

/-- What a finished traversal of one category reports: the pages fetched in
order, the items processed, and whether the model ran out of fuel before
the loop finished (the source loop has no fuel; fuelOk true means the fuel
bound was not the reason the recursion stopped). -/
structure TravResult where
  fetched : List ℕ
  processed : ℕ
  fuelOk : Bool
deriving DecidableEq

/-- The page loop of SpiderService.fetch_category_products: check the cap,
fetch the current page, short-circuit an empty category on page 1 when
hasMore is false, break on an empty page, process the items under the cap,
then break when the page held fewer items than the page size, otherwise
advance to the next page. -/
def fetchLoop (pages : ℕ → PageResp) (size : ℕ) (maxP : Option ℕ) :
    ℕ → ℕ → ℕ → List ℕ → TravResult
  | 0, _, total, fetched => ⟨fetched, total, false⟩
  | fuel + 1, page, total, fetched =>
    if capReached maxP total then ⟨fetched, total, true⟩
    else if page = 1 ∧ (pages page).hasMore = false ∧ (pages page).items = [] then
      ⟨fetched ++ [page], total, true⟩
    else if (pages page).items = [] then ⟨fetched ++ [page], total, true⟩
    else if capReached maxP (pageInner maxP (pages page).items total) then
      ⟨fetched ++ [page], pageInner maxP (pages page).items total, true⟩
    else if (pages page).items.length < size then
      ⟨fetched ++ [page], pageInner maxP (pages page).items total, true⟩
    else fetchLoop pages size maxP fuel (page + 1)
      (pageInner maxP (pages page).items total) (fetched ++ [page])

/-- SpiderService.fetch_category_products for one category, starting at
page 1 with zero items processed. -/
def fetch_category_products (pages : ℕ → PageResp) (size : ℕ)
    (maxP : Option ℕ) (fuel : ℕ) : TravResult :=
  fetchLoop pages size maxP fuel 1 0 []

/-- SpiderService.spider_main_process: every category traversal is invoked
with the same max_products argument but counts into its own local
total_products variable; the should_stop flag is declared and read but
never set, so nothing links the counters of different traversals.  The
total across the run is therefore the plain sum of the per-category
counts (the cooperative interleaving shares no mutable state between
traversals, so the sequential sum models any schedule). -/
def spider_total_processed (cats : List (ℕ → PageResp)) (size : ℕ)
    (maxP : Option ℕ) (fuel : ℕ) : ℕ :=
  (cats.map (fun pages => (fetch_category_products pages size maxP fuel).processed)).sum

/-- One iteration of the per-page item loop as seen by the enclosing
try/except: either the item is processed normally, or processing raises
after having flushed some uncommitted writes (modelled as an arbitrary
mutation of the pending state), in which case process_single_product rolls
the session back and the loop catches the re-raised error and continues. -/
inductive ItemStep where
  | ok (item_summary : ItemSummary) (category_id : Option ℤ)
      (detail : DetailResponse) (atlas : List AtlasResponse)
  | err (partialWrites : DBState → DBState)

/-- Run one item of the page loop. -/
def runItemStep (now : ℚ) (update_task_id : ℤ) (sess : Session) :
    ItemStep → Session × List Event
  | .ok item cat detail atlas =>
    let r := process_single_product now update_task_id item cat detail atlas sess
    (r.sess, r.events)
  | .err w =>
    (Session.rollback { sess with pending := w sess.pending }, [])

/-- The item loop of fetch_category_products over one page: each failure is
caught and the loop continues with the next item. -/
def processPageItems (now : ℚ) (update_task_id : ℤ) :
    List ItemStep → Session → Session × List Event
  | [], sess => (sess, [])
  | step :: rest, sess =>
    let r := runItemStep now update_task_id sess step
    let r2 := processPageItems now update_task_id rest r.1
    (r2.1, r.2 ++ r2.2)

/-- The page sequence of one category run at the database level: each page
opens a fresh session over the committed database state, runs its items,
and the next page starts from whatever the previous page committed. -/
def runPages (now : ℚ) (update_task_id : ℤ) :
    List (List ItemStep) → DBState → DBState × List Event
  | [], db => (db, [])
  | page :: rest, db =>
    let r := processPageItems now update_task_id page { committed := db, pending := db }
    let r2 := runPages now update_task_id rest r.1.committed
    (r2.1, r.2 ++ r2.2)

lemma foldl_max_mem (xs : List ℚ) (x : ℚ) : xs.foldl max x ∈ x :: xs := by
  induction xs generalizing x with
  | nil => simp [List.foldl]
  | cons y ys ih =>
    have h := ih (max x y)
    rcases List.mem_cons.mp h with h1 | h1
    · rcases max_choice x y with hc | hc
      · rw [List.foldl_cons, h1, hc]; exact List.mem_cons_self _ _
      · rw [List.foldl_cons, h1, hc]
        exact List.mem_cons_of_mem _ (List.mem_cons_self _ _)
    · exact List.mem_cons_of_mem _ (List.mem_cons_of_mem _ (by simpa using h1))

lemma le_foldl_max (xs : List ℚ) (x : ℚ) : x ≤ xs.foldl max x := by
  induction xs generalizing x with
  | nil => simp [List.foldl]
  | cons y ys ih =>
    rw [List.foldl_cons]
    exact le_trans (le_max_left x y) (ih (max x y))

lemma foldl_max_map_mono (f : ℚ → ℚ) (hf : Monotone f) (xs : List ℚ) (x : ℚ) :
    (xs.map f).foldl max (f x) = f (xs.foldl max x) := by
  induction xs generalizing x with
  | nil => simp [List.foldl]
  | cons y ys ih =>
    rw [List.map_cons, List.foldl_cons, List.foldl_cons, ← hf.map_max, ih]

lemma map_id_of_mem {α : Type} (l : List α) (f : α → α) (h : ∀ x ∈ l, f x = x) :
    l.map f = l := by
  induction l with
  | nil => rfl
  | cons x xs ih =>
    rw [List.map_cons, h x (List.mem_cons_self _ _),
      ih (fun y hy => h y (List.mem_cons_of_mem _ hy))]

lemma prepare_some_inv {now : ℚ} {fid : ℤ} {i m : String} {c : Option ℤ}
    {dr : DetailResponse} {ar : List AtlasResponse} {pd : ProductData} {sv : Bool}
    (h : prepare_product_data now fid i m c dr ar = (some pd, sv)) :
    pd = buildProductData now fid i m c dr.detailData ar ∧ sv = true ∧
      shouldSave now dr.detailData ar = true := by
  unfold prepare_product_data at h
  by_cases hb : shouldSave now dr.detailData ar = true
  · simp only [hb, if_true] at h
    injection h with h1 h2
    injection h1 with h1
    exact ⟨h1.symm, h2.symm, hb⟩
  · simp [if_neg hb] at h

lemma shouldSave_true_inv {now : ℚ} {d : DetailData} {ar : List AtlasResponse}
    (h : shouldSave now d ar = true) :
    collectQcImages d ar ≠ [] ∧
      ∃ t, lastQcTimeOf (collectQcTimes d ar) = some t ∧ now - thirtyDays ≤ t := by
  unfold shouldSave at h
  by_cases himg : collectQcImages d ar = []
  · rw [if_pos himg] at h; exact absurd h (by simp)
  · rw [if_neg himg] at h
    refine ⟨himg, ?_⟩
    cases hlast : lastQcTimeOf (collectQcTimes d ar) with
    | none => rw [hlast] at h; exact absurd h (by simp)
    | some t =>
      rw [hlast] at h
      refine ⟨t, rfl, ?_⟩
      by_contra hlt
      rw [not_le] at hlt
      simp [hlt] at h

lemma shouldSave_false_of {now : ℚ} {d : DetailData} {ar : List AtlasResponse}
    (h : collectQcImages d ar = [] ∨
         lastQcTimeOf (collectQcTimes d ar) = none ∨
         ∃ t, lastQcTimeOf (collectQcTimes d ar) = some t ∧ t < now - thirtyDays) :
    shouldSave now d ar = false := by
  unfold shouldSave
  rcases h with h | h | ⟨t, ht, hlt⟩
  · rw [if_pos h]
  · by_cases himg : collectQcImages d ar = []
    · rw [if_pos himg]
    · rw [if_neg himg, h]
  · by_cases himg : collectQcImages d ar = []
    · rw [if_pos himg]
    · rw [if_neg himg, ht]
      simp [hlt]

lemma prepare_none_of {now : ℚ} {fid : ℤ} {i m : String} {c : Option ℤ}
    {dr : DetailResponse} {ar : List AtlasResponse}
    (h : shouldSave now dr.detailData ar = false) :
    prepare_product_data now fid i m c dr ar = (none, false) := by
  unfold prepare_product_data
  simp [h]

lemma process_skip_of_gate {now : ℚ} {tid : ℤ} {item : ItemSummary}
    {cat : Option ℤ} {dr : DetailResponse} {ar : List AtlasResponse} {sess : Session}
    (h : shouldSave now dr.detailData ar = false) :
    process_single_product now tid item cat dr ar sess = ⟨sess, [], [], none⟩ := by
  unfold process_single_product
  split
  · rfl
  · split
    · rfl
    · rw [prepare_none_of h]

/-- C5: a product whose normalized qc image list is empty, or whose computed
lastQcTime is null or more than 30 days before now, is skipped entirely by
the pipeline: no database write, no task record, no event. -/
theorem C5_freshness_gate_skips (now : ℚ) (update_task_id : ℤ)
    (item : ItemSummary) (cat : Option ℤ) (dr : DetailResponse)
    (ar : List AtlasResponse) (sess : Session)
    (h : collectQcImages dr.detailData ar = [] ∨
         lastQcTimeOf (collectQcTimes dr.detailData ar) = none ∨
         ∃ t, lastQcTimeOf (collectQcTimes dr.detailData ar) = some t ∧
           t < now - thirtyDays) :
    process_single_product now update_task_id item cat dr ar sess =
      ⟨sess, [], [], none⟩ :=
  process_skip_of_gate (shouldSave_false_of h)

/-- C5 witness: a payload with an empty qc image list is skipped. -/
theorem C5_freshness_gate_skips_witness :
    process_single_product 8640000 7 ⟨some 5, "i", "m"⟩ none
      ⟨{ price := none, weight := none, picList := ["p"], propsList := [],
         qcList := [] }⟩ []
      ⟨⟨[], []⟩, ⟨[], []⟩⟩ = ⟨⟨⟨[], []⟩, ⟨[], []⟩⟩, [], [], none⟩ :=
  C5_freshness_gate_skips 8640000 7 ⟨some 5, "i", "m"⟩ none
    ⟨{ price := none, weight := none, picList := ["p"], propsList := [],
       qcList := [] }⟩ [] ⟨⟨[], []⟩, ⟨[], []⟩⟩ (Or.inl (by decide))

/-- C10: whenever prepare_product_data accepts a product, the returned data
has status Active (0) and a qc_count_30days of at least one, because the
newest normalized QC timestamp itself lies inside the 30 day window and is
counted. -/
theorem C10_eligible_active_count_pos (now : ℚ) (fid : ℤ) (i m : String)
    (c : Option ℤ) (dr : DetailResponse) (ar : List AtlasResponse)
    (pd : ProductData) (sv : Bool)
    (h : prepare_product_data now fid i m c dr ar = (some pd, sv)) :
    pd.status = 0 ∧ 1 ≤ pd.qc_count_30days := by
  obtain ⟨hpd, _, hsv⟩ := prepare_some_inv h
  obtain ⟨_, t, hlast, hfresh⟩ := shouldSave_true_inv hsv
  subst hpd
  refine ⟨rfl, ?_⟩
  show 1 ≤ qcCount30Pre now (lastQcTimeOf (collectQcTimes dr.detailData ar))
    (collectQcTimes dr.detailData ar)
  rw [hlast]
  obtain ⟨M, hM, hnorm⟩ : ∃ M, pyMax (collectQcTimes dr.detailData ar) = some M ∧
      normalizeTs M = t := by
    unfold lastQcTimeOf at hlast
    cases hpm : pyMax (collectQcTimes dr.detailData ar) with
    | none => rw [hpm] at hlast; simp at hlast
    | some M => rw [hpm] at hlast; exact ⟨M, rfl, by simpa using hlast⟩
  cases hts : collectQcTimes dr.detailData ar with
  | nil => rw [hts] at hM; simp [pyMax] at hM
  | cons x xs =>
    rw [hts] at hM
    simp only [pyMax, Option.some.injEq] at hM
    have hmem : M ∈ x :: xs := hM ▸ foldl_max_mem xs x
    show 1 ≤ qcCount30Days now (x :: xs)
    have hmemf : M ∈ (x :: xs).filter (fun t2 => decide (now - thirtyDays ≤ normalizeTs t2)) :=
      List.mem_filter.mpr ⟨hmem, by rw [hnorm]; exact decide_eq_true hfresh⟩
    have := List.length_pos.mpr (List.ne_nil_of_mem hmemf)
    unfold qcCount30Days
    omega

/-- C10 witness: a concrete eligible payload gets status 0 and a positive
30 day count. -/
theorem C10_eligible_active_count_pos_witness :
    (prepare_product_data 8640000 5 "i" "m" none
      ⟨{ price := none, weight := none, picList := [], propsList := [],
         qcList := [{ url := some "u", time := some 8640000 }] }⟩ []) =
      (some (buildProductData 8640000 5 "i" "m" none
        { price := none, weight := none, picList := [], propsList := [],
          qcList := [{ url := some "u", time := some 8640000 }] } []), true) ∧
    (buildProductData 8640000 5 "i" "m" none
      { price := none, weight := none, picList := [], propsList := [],
        qcList := [{ url := some "u", time := some 8640000 }] } []).status = 0 ∧
    1 ≤ (buildProductData 8640000 5 "i" "m" none
      { price := none, weight := none, picList := [], propsList := [],
        qcList := [{ url := some "u", time := some 8640000 }] } []).qc_count_30days := by
  refine ⟨by decide, ?_, ?_⟩
  · exact (C10_eligible_active_count_pos 8640000 5 "i" "m" none
      ⟨{ price := none, weight := none, picList := [], propsList := [],
         qcList := [{ url := some "u", time := some 8640000 }] }⟩ [] _ true
      (by decide)).1
  · exact (C10_eligible_active_count_pos 8640000 5 "i" "m" none
      ⟨{ price := none, weight := none, picList := [], propsList := [],
         qcList := [{ url := some "u", time := some 8640000 }] }⟩ [] _ true
      (by decide)).2

lemma monotone_divThousand : Monotone (fun t : ℚ => t / 1000) := by
  intro a b hab
  have h1000 : (0 : ℚ) ≤ 1000⁻¹ := by norm_num
  simpa [div_eq_mul_inv] using mul_le_mul_of_nonneg_right hab h1000

/-- C8 counterexample: the raw timestamps 2·10^10 (milliseconds) and 10^10
(seconds) denote the instants 2·10^7 and 10^10; the code stores 2·10^7
because it normalizes only the raw maximum 2·10^10, while the maximum of
the normalized timestamps is 10^10 — the stored lastQcTime is not the
latest instant after normalization. -/
theorem C8_counterexample :
    ((prepare_product_data (2 * 10 ^ 7 + 100) 1 "i" "m" none
        ⟨{ price := none, weight := none, picList := [], propsList := [],
           qcList := [⟨some "u", some (2 * 10 ^ 10)⟩, ⟨some "v", some (10 ^ 10)⟩] }⟩
        []).1.map (fun pd => pd.last_qc_time)) = some (some (2 * 10 ^ 7)) ∧
    specLastQcTimeOf (collectQcTimes
      { price := none, weight := none, picList := [], propsList := [],
        qcList := [⟨some "u", some (2 * 10 ^ 10)⟩, ⟨some "v", some (10 ^ 10)⟩] } []) =
      some (10 ^ 10) ∧
    (some (2 * 10 ^ 7) : Option ℚ) ≠ some (10 ^ 10) := by
  refine ⟨by decide, by decide, by decide⟩

/-- C8 amended: a raw value greater than 10^10 is treated as milliseconds
and divided by 1000, otherwise as seconds; lastQcTime is the normalization
of the maximum RAW timestamp, which coincides with the maximum of the
normalized timestamps whenever all collected timestamps lie in the same
unit regime (all at most 10^10 or all above it), though not for mixed
lists; and the data stored for an accepted product carries exactly this
lastQcTimeOf value. -/
theorem C8_amended_normalization (ts : List ℚ)
    (h : (∀ t ∈ ts, t ≤ tenBillion) ∨ (∀ t ∈ ts, tenBillion < t)) :
    lastQcTimeOf ts = specLastQcTimeOf ts ∧
    (∀ t : ℚ, tenBillion < t → normalizeTs t = t / 1000) ∧
    (∀ t : ℚ, t ≤ tenBillion → normalizeTs t = t) ∧
    normalizeTs 1700000000000 = 1700000000 ∧
    (∀ (now : ℚ) (fid : ℤ) (i m : String) (c : Option ℤ) (dr : DetailResponse)
      (ar : List AtlasResponse) (pd : ProductData) (sv : Bool),
      prepare_product_data now fid i m c dr ar = (some pd, sv) →
      pd.last_qc_time = lastQcTimeOf (collectQcTimes dr.detailData ar)) := by
  have hms : ∀ t : ℚ, tenBillion < t → normalizeTs t = t / 1000 := by
    intro t ht; unfold normalizeTs; rw [if_pos ht]
  have hsec : ∀ t : ℚ, t ≤ tenBillion → normalizeTs t = t := by
    intro t ht; unfold normalizeTs; rw [if_neg (not_lt.mpr ht)]
  refine ⟨?_, hms, hsec, by decide, ?_⟩
  · cases ts with
    | nil => rfl
    | cons x xs =>
      rcases h with hall | hall
      · have hmap : (x :: xs).map normalizeTs = x :: xs :=
          map_id_of_mem _ _ (fun t ht => hsec t (hall t ht))
        have hM : xs.foldl max x ∈ x :: xs := foldl_max_mem xs x
        unfold lastQcTimeOf specLastQcTimeOf
        rw [hmap]
        simp only [pyMax, Option.map_some']
        rw [hsec _ (hall _ hM)]
      · have hmap : (x :: xs).map normalizeTs = (x :: xs).map (fun t => t / 1000) :=
          List.map_congr_left (fun t ht => hms t (hall t ht))
        have hMgt : tenBillion < xs.foldl max x :=
          lt_of_lt_of_le (hall x (List.mem_cons_self _ _)) (le_foldl_max xs x)
        unfold lastQcTimeOf specLastQcTimeOf
        rw [hmap]
        simp only [pyMax, List.map_cons, Option.map_some']
        rw [foldl_max_map_mono _ monotone_divThousand, hms _ hMgt]
  · intro now fid i m c dr ar pd sv hp
    obtain ⟨hpd, _, _⟩ := prepare_some_inv hp
    subst hpd
    rfl

/-- C8 witness: on a uniform-unit list the code value and the spec value
of lastQcTime agree. -/
theorem C8_amended_normalization_witness :
    lastQcTimeOf [5, 7] = specLastQcTimeOf [5, 7] :=
  (C8_amended_normalization [5, 7] (Or.inl (by decide))).1

/-- C2 counterexample: the stored row for findqc_id 1 is Active and the
freshly computed lastQcTime 777600 is 31 days older than the wall clock
3456000 (40 days); the pipeline leaves the database completely unchanged
(the stored status stays 0 and lastUpdate is untouched) and emits nothing,
instead of transitioning the row to SoftDeleted as the claim states. -/
theorem C2_counterexample :
    process_single_product 3456000 7 ⟨some 1, "i", "m"⟩ none
      ⟨{ price := none, weight := none, picList := [], propsList := [],
         qcList := [⟨some "u", some 777600⟩] }⟩ []
      ⟨⟨[⟨1, 1, "i", "m", none, none, none, ⟨[], [], []⟩, some 3024000, 2,
          some 3, some 3024000, 0⟩], []⟩,
        ⟨[⟨1, 1, "i", "m", none, none, none, ⟨[], [], []⟩, some 3024000, 2,
          some 3, some 3024000, 0⟩], []⟩⟩ =
      ⟨⟨⟨[⟨1, 1, "i", "m", none, none, none, ⟨[], [], []⟩, some 3024000, 2,
          some 3, some 3024000, 0⟩], []⟩,
        ⟨[⟨1, 1, "i", "m", none, none, none, ⟨[], [], []⟩, some 3024000, 2,
          some 3, some 3024000, 0⟩], []⟩⟩, [], [], none⟩ ∧
    lastQcTimeOf (collectQcTimes
      { price := none, weight := none, picList := [], propsList := [],
        qcList := [⟨some "u", some 777600⟩] } []) = some 777600 ∧
    (777600 : ℚ) < 3456000 - thirtyDays := by
  refine ⟨by decide, by decide, by decide⟩

/-- C2 amended: a 31 day old freshly computed lastQcTime is rejected by the
freshness gate before any database access, so the pipeline performs no
write and emits nothing for such a product; the SoftDeleted transition
(status 1 plus a refreshed lastUpdate, no task and no event) lives in the
repository function check_and_update_existing_product and fires only when
that function is reached with a stale timestamp. -/
theorem C2_amended_soft_delete (now : ℚ) (tid fid : ℤ) (item : ItemSummary)
    (cat : Option ℤ) (dr : DetailResponse) (ar : List AtlasResponse)
    (sess : Session) (products : List ProductRow) (p0 : ProductRow)
    (qc : ℕ) (t : ℚ)
    (hlast : lastQcTimeOf (collectQcTimes dr.detailData ar) = some t)
    (hstale : t < now - thirtyDays)
    (hfound : findProduct fid products = some p0) :
    process_single_product now tid item cat dr ar sess = ⟨sess, [], [], none⟩ ∧
    check_and_update_existing_product now fid (some t) qc products =
      (updateProductRow fid { p0 with status := 1, last_update := some now } products,
       some { p0 with status := 1, last_update := some now }, .exists_deleted) := by
  constructor
  · exact process_skip_of_gate (shouldSave_false_of (Or.inr (Or.inr ⟨t, hlast, hstale⟩)))
  · unfold check_and_update_existing_product
    rw [hfound]
    simp only [if_neg (not_le.mpr hstale)]

/-- C2 witness: concrete stale product, instantiating both halves. -/
theorem C2_amended_soft_delete_witness :
    process_single_product 3456000 9 ⟨some 2, "j", "w"⟩ none
      ⟨{ price := none, weight := none, picList := [], propsList := [],
         qcList := [⟨some "q", some 777600⟩] }⟩ []
      ⟨⟨[], []⟩, ⟨[], []⟩⟩ = ⟨⟨⟨[], []⟩, ⟨[], []⟩⟩, [], [], none⟩ :=
  (C2_amended_soft_delete 3456000 9 2 ⟨some 2, "j", "w"⟩ none
    ⟨{ price := none, weight := none, picList := [], propsList := [],
       qcList := [⟨some "q", some 777600⟩] }⟩ []
    ⟨⟨[], []⟩, ⟨[], []⟩⟩
    [⟨1, 2, "j", "w", none, none, none, ⟨[], [], []⟩, some 3024000, 2,
      some 3, some 3024000, 0⟩]
    ⟨1, 2, "j", "w", none, none, none, ⟨[], [], []⟩, some 3024000, 2,
      some 3, some 3024000, 0⟩
    2 777600 (by decide) (by decide) (by decide)).1

lemma capReached_none (total : ℕ) : capReached none total = false := rfl

lemma capReached_false_lt {m total : ℕ} (hm : 1 ≤ m)
    (h : ¬ capReached (some m) total = true) : total < m := by
  unfold capReached at h
  have hne : ¬ m = 0 := by omega
  simp [hne] at h
  exact h

lemma pageInner_le (m : ℕ) (hm : 1 ≤ m) :
    ∀ (l : List ItemSummary) (total : ℕ), total ≤ m →
      pageInner (some m) l total ≤ m := by
  intro l
  induction l with
  | nil => intro total h; exact h
  | cons x xs ih =>
    intro total h
    unfold pageInner
    by_cases hc : capReached (some m) total = true
    · rw [if_pos hc]; exact h
    · rw [if_neg hc]
      exact ih (total + 1) (capReached_false_lt hm hc)

lemma fetchLoop_le (pages : ℕ → PageResp) (size m : ℕ) (hm : 1 ≤ m) :
    ∀ (fuel page total : ℕ) (fetched : List ℕ), total ≤ m →
      (fetchLoop pages size (some m) fuel page total fetched).processed ≤ m := by
  intro fuel
  induction fuel with
  | zero => intro page total fetched h; exact h
  | succ f ih =>
    intro page total fetched h
    unfold fetchLoop
    by_cases hc : capReached (some m) total = true
    · rw [if_pos hc]; exact h
    · rw [if_neg hc]
      have hin : pageInner (some m) (pages page).items total ≤ m :=
        pageInner_le m hm _ _ h
      split
      · exact h
      · split
        · exact h
        · split
          · exact hin
          · split
            · exact hin
            · exact ih _ _ _ hin

/-- C6 counterexample: with a configured cap of 1 and two categories whose
page 1 each holds one item, the run as a whole processes 2 items — the
counter is local to each category traversal, so the global bound claimed
for the whole run does not hold. -/
theorem C6_counterexample :
    spider_total_processed
      [fun _ => ⟨[⟨some 1, "i", "m"⟩], false⟩, fun _ => ⟨[⟨some 1, "i", "m"⟩], false⟩]
      20 (some 1) 8 = 2 ∧
    ¬ spider_total_processed
      [fun _ => ⟨[⟨some 1, "i", "m"⟩], false⟩, fun _ => ⟨[⟨some 1, "i", "m"⟩], false⟩]
      20 (some 1) 8 ≤ 1 := by
  refine ⟨by decide, by decide⟩

/-- C6 amended: the maximum-products cap is enforced by a counter local to
each category traversal, not a shared run-wide one (should_stop is never
set); each traversal processes at most cap items, so a run over k
categories processes at most k times the cap, with no global bound of cap
across traversals. -/
theorem C6_amended_per_category_cap (m size fuel : ℕ) (hm : 1 ≤ m)
    (pages : ℕ → PageResp) (cats : List (ℕ → PageResp)) :
    (fetch_category_products pages size (some m) fuel).processed ≤ m ∧
    spider_total_processed cats size (some m) fuel ≤ cats.length * m := by
  constructor
  · exact fetchLoop_le pages size m hm fuel 1 0 [] (Nat.zero_le m)
  · unfold spider_total_processed
    have hb : ∀ x ∈ cats.map
        (fun pg => (fetch_category_products pg size (some m) fuel).processed), x ≤ m := by
      intro x hx
      obtain ⟨pg, _, rfl⟩ := List.mem_map.mp hx
      exact fetchLoop_le pg size m hm fuel 1 0 [] (Nat.zero_le m)
    have := List.sum_le_card_nsmul _ m hb
    simpa [smul_eq_mul] using this

/-- C6 witness for the amended bound: the concrete two-category run from
the counterexample respects the per-category bound. -/
theorem C6_amended_per_category_cap_witness :
    spider_total_processed
      [fun _ => ⟨[⟨some 1, "i", "m"⟩], false⟩, fun _ => ⟨[⟨some 1, "i", "m"⟩], false⟩]
      20 (some 1) 8 ≤ 2 := by
  have h := (C6_amended_per_category_cap 1 20 8 (by decide)
    (fun _ => ⟨[⟨some 1, "i", "m"⟩], false⟩)
    [fun _ => ⟨[⟨some 1, "i", "m"⟩], false⟩, fun _ => ⟨[⟨some 1, "i", "m"⟩], false⟩]).2
  simpa using h

lemma pageInner_none (l : List ItemSummary) :
    ∀ total, pageInner none l total = total + l.length := by
  induction l with
  | nil => intro total; simp [pageInner]
  | cons x xs ih =>
    intro total
    show pageInner none xs (total + 1) = total + (xs.length + 1)
    rw [ih]
    omega

lemma fetchLoop_none_spec (pages : ℕ → PageResp) (size : ℕ) :
    ∀ (n fuel page total : ℕ) (fetched : List ℕ), n + 1 ≤ fuel →
      (∀ q, page ≤ q → q < page + n → size ≤ (pages q).items.length) →
      (pages (page + n)).items.length < size →
      fetchLoop pages size none fuel page total fetched =
        ⟨fetched ++ List.range' page (n + 1),
         total + ((List.range' page (n + 1)).map
           (fun q => (pages q).items.length)).sum, true⟩ := by
  intro n
  induction n with
  | zero =>
    intro fuel page total fetched hfuel _ hshort
    obtain ⟨f, rfl⟩ : ∃ f, fuel = f + 1 := ⟨fuel - 1, by omega⟩
    rw [Nat.add_zero] at hshort
    unfold fetchLoop
    rw [if_neg (by rw [capReached_none]; exact Bool.false_ne_true)]
    by_cases h1 : page = 1 ∧ (pages page).hasMore = false ∧ (pages page).items = []
    · rw [if_pos h1]
      have hlen : (pages page).items.length = 0 := by rw [h1.2.2]; rfl
      simp [List.range'_one, hlen]
    · rw [if_neg h1]
      by_cases h2 : (pages page).items = []
      · rw [if_pos h2]
        have hlen : (pages page).items.length = 0 := by rw [h2]; rfl
        simp [List.range'_one, hlen]
      · rw [if_neg h2]
        rw [if_neg (by rw [capReached_none]; exact Bool.false_ne_true)]
        rw [if_pos hshort]
        simp [List.range'_one, pageInner_none]
  | succ n ih =>
    intro fuel page total fetched hfuel hfull hshort
    obtain ⟨f, rfl⟩ : ∃ f, fuel = f + 1 := ⟨fuel - 1, by omega⟩
    have hlenge : size ≤ (pages page).items.length :=
      hfull page le_rfl (by omega)
    have hne : (pages page).items ≠ [] := by
      intro he
      rw [he] at hlenge
      simp at hlenge
      omega
    unfold fetchLoop
    rw [if_neg (by rw [capReached_none]; exact Bool.false_ne_true)]
    rw [if_neg (by rintro ⟨-, -, h⟩; exact hne h)]
    rw [if_neg hne]
    rw [if_neg (by rw [capReached_none]; exact Bool.false_ne_true)]
    rw [if_neg (Nat.not_lt.mpr hlenge)]
    rw [ih f (page + 1) (pageInner none (pages page).items total) (fetched ++ [page])
      (by omega)
      (fun q hq1 hq2 => hfull q (by omega) (by omega))
      (by rw [show page + 1 + n = page + (n + 1) from by omega]; exact hshort)]
    rw [pageInner_none]
    have hr : List.range' page (n + 1 + 1) = page :: List.range' (page + 1) (n + 1) :=
      List.range'_succ page (n + 1) 1
    rw [hr]
    simp [List.sum_cons, Nat.add_assoc]

/-- C4: with no cap configured, the category traversal terminates exactly
at the first page whose item count is below the requested page size,
regardless of every hasMore flag (the flags are universally quantified
and unconstrained beyond the short-circuit, which yields the same
outcome): it fetches pages 1..p, processes every item of each fetched page
including the final short one, and stops; in particular a full page is
always followed by a fetch of the next page even when its hasMore is
false, and an empty page 1 with hasMore false fetches nothing further. -/
theorem C4_pagination_termination (pages : ℕ → PageResp) (size fuel p : ℕ)
    (hp : 1 ≤ p) (hfuel : p ≤ fuel)
    (hshort : (pages p).items.length < size)
    (hfull : ∀ q, 1 ≤ q → q < p → size ≤ (pages q).items.length) :
    fetch_category_products pages size none fuel =
      ⟨List.range' 1 p,
       ((List.range' 1 p).map (fun q => (pages q).items.length)).sum, true⟩ := by
  obtain ⟨n, rfl⟩ : ∃ n, p = n + 1 := ⟨p - 1, by omega⟩
  unfold fetch_category_products
  rw [fetchLoop_none_spec pages size n fuel 1 0 [] (by omega)
    (fun q hq1 hq2 => hfull q hq1 (by omega))
    (by rw [show 1 + n = n + 1 from by omega]; exact hshort)]
  simp

/-- C4 witness: the end-to-end scenario of the spec — page size 20, page 1
full with hasMore false, page 2 with 5 items — fetches pages 1 and 2 and
processes 25 items. -/
theorem C4_pagination_termination_witness :
    fetch_category_products
      (fun q => if q = 1 then ⟨List.replicate 20 ⟨some 1, "i", "m"⟩, false⟩
                else ⟨List.replicate 5 ⟨some 1, "i", "m"⟩, true⟩)
      20 none 10 = ⟨[1, 2], 25, true⟩ := by
  have h := C4_pagination_termination
    (fun q => if q = 1 then ⟨List.replicate 20 ⟨some 1, "i", "m"⟩, false⟩
              else ⟨List.replicate 5 ⟨some 1, "i", "m"⟩, true⟩)
    20 10 2 (by decide) (by decide) (by decide)
    (by
      intro q h1 h2
      have hq : q = 1 := by omega
      subst hq
      decide)
  exact h.trans (by decide)

lemma retry_sleeps_shift (sl : List ℚ) (cd b : ℚ) (n : ℕ) :
    (sl ++ [cd]) ++ (List.range n).map (fun k => (cd * b) * b ^ k) =
      sl ++ (List.range (n + 1)).map (fun k => cd * b ^ k) := by
  have h : (List.range (n + 1)).map (fun k => cd * b ^ k) =
      cd :: (List.range n).map (fun k => (cd * b) * b ^ k) := by
    rw [List.range_succ_eq_map, List.map_cons, List.map_map]
    have h0 : cd * b ^ 0 = cd := by simp
    have h1 : ((fun k => cd * b ^ k) ∘ Nat.succ) = fun k => (cd * b) * b ^ k := by
      funext k
      simp only [Function.comp_apply]
      rw [pow_succ]
      ring
    rw [h0, h1]
  rw [h, List.append_assoc, List.singleton_append]

lemma asyncRetryLoop_exhaust {α : Type} (m : ℕ) (b : ℚ) (oc : ℕ → ApiOutcome α) :
    ∀ (remaining attempt : ℕ) (cd : ℚ) (sl : List ℚ) (le : Option (ApiOutcome α)),
      remaining + attempt = m + 1 → 1 ≤ attempt → attempt ≤ m →
      (∀ i, attempt ≤ i → i ≤ m → retryableFailure (oc i) = true) →
      asyncRetryLoop m b oc remaining attempt cd sl le =
        ⟨.raised (oc m), m,
         sl ++ (List.range (m - attempt)).map (fun k => cd * b ^ k)⟩ := by
  intro remaining
  induction remaining with
  | zero => intro attempt cd sl le h1 h2 h3 h4; omega
  | succ r ih =>
    intro attempt cd sl le h1 h2 h3 h4
    have hretry := h4 attempt le_rfl h3
    unfold asyncRetryLoop
    split
    · rename_i v hoc
      rw [hoc] at hretry
      simp [retryableFailure] at hretry
    · rename_i code hoc
      rw [hoc] at hretry
      simp only [retryableFailure, Bool.or_eq_true, decide_eq_true_eq] at hretry
      by_cases h5 : 500 ≤ code
      · rw [if_pos h5]
        by_cases hlt : attempt < m
        · rw [if_pos hlt]
          rw [ih (attempt + 1) (cd * b) (sl ++ [cd]) (some (.httpStatus code))
            (by omega) (by omega) (by omega) (fun i hi1 hi2 => h4 i (by omega) hi2)]
          rw [retry_sleeps_shift]
          have hma : m - (attempt + 1) + 1 = m - attempt := by omega
          rw [hma]
        · rw [if_neg hlt]
          have ham : attempt = m := by omega
          subst ham
          simp [hoc]
      · have h429 : code = 429 := by
          rcases hretry with h | h
          · exact absurd h h5
          · exact h
        rw [if_neg h5, if_pos h429]
        by_cases hlt : attempt < m
        · rw [if_pos hlt]
          rw [ih (attempt + 1) (cd * b) (sl ++ [cd]) (some (.httpStatus code))
            (by omega) (by omega) (by omega) (fun i hi1 hi2 => h4 i (by omega) hi2)]
          rw [retry_sleeps_shift]
          have hma : m - (attempt + 1) + 1 = m - attempt := by omega
          rw [hma]
        · rw [if_neg hlt]
          have ham : attempt = m := by omega
          subst ham
          simp [hoc]
    · rename_i hoc
      by_cases hlt : attempt < m
      · rw [if_pos hlt]
        rw [ih (attempt + 1) (cd * b) (sl ++ [cd]) (some .netError)
          (by omega) (by omega) (by omega) (fun i hi1 hi2 => h4 i (by omega) hi2)]
        rw [retry_sleeps_shift]
        have hma : m - (attempt + 1) + 1 = m - attempt := by omega
        rw [hma]
      · rw [if_neg hlt]
        have ham : attempt = m := by omega
        subst ham
        simp [hoc]
    · rename_i hoc
      rw [hoc] at hretry
      simp [retryableFailure] at hretry

lemma asyncRetryLoop_success_spec {α : Type} (m : ℕ) (b : ℚ) (oc : ℕ → ApiOutcome α)
    (j : ℕ) (v : α) (hsucc : oc (j + 1) = .success v) (hjm : j + 1 ≤ m) :
    ∀ (remaining attempt : ℕ) (cd : ℚ) (sl : List ℚ) (le : Option (ApiOutcome α)),
      remaining + attempt = m + 1 → 1 ≤ attempt → attempt ≤ j + 1 →
      (∀ i, attempt ≤ i → i ≤ j → retryableFailure (oc i) = true) →
      asyncRetryLoop m b oc remaining attempt cd sl le =
        ⟨.ok v, j + 1,
         sl ++ (List.range (j + 1 - attempt)).map (fun k => cd * b ^ k)⟩ := by
  intro remaining
  induction remaining with
  | zero => intro attempt cd sl le h1 h2 h3 h4; omega
  | succ r ih =>
    intro attempt cd sl le h1 h2 h3 h4
    by_cases hend : attempt = j + 1
    · subst hend
      unfold asyncRetryLoop
      split
      · rename_i w hoc
        rw [hsucc] at hoc
        injection hoc with hv
        subst hv
        simp
      · rename_i code hoc
        rw [hsucc] at hoc
        exact absurd hoc (by simp)
      · rename_i hoc
        rw [hsucc] at hoc
        exact absurd hoc (by simp)
      · rename_i hoc
        rw [hsucc] at hoc
        exact absurd hoc (by simp)
    · have hlt2 : attempt ≤ j := by omega
      have hretry := h4 attempt le_rfl hlt2
      have hltm : attempt < m := by omega
      unfold asyncRetryLoop
      split
      · rename_i w hoc
        rw [hoc] at hretry
        simp [retryableFailure] at hretry
      · rename_i code hoc
        rw [hoc] at hretry
        simp only [retryableFailure, Bool.or_eq_true, decide_eq_true_eq] at hretry
        by_cases h5 : 500 ≤ code
        · rw [if_pos h5, if_pos hltm]
          rw [ih (attempt + 1) (cd * b) (sl ++ [cd]) (some (.httpStatus code))
            (by omega) (by omega) (by omega) (fun i hi1 hi2 => h4 i (by omega) hi2)]
          rw [retry_sleeps_shift]
          have hma : j + 1 - (attempt + 1) + 1 = j + 1 - attempt := by omega
          rw [hma]
        · have h429 : code = 429 := by
            rcases hretry with h | h
            · exact absurd h h5
            · exact h
          rw [if_neg h5, if_pos h429, if_pos hltm]
          rw [ih (attempt + 1) (cd * b) (sl ++ [cd]) (some (.httpStatus code))
            (by omega) (by omega) (by omega) (fun i hi1 hi2 => h4 i (by omega) hi2)]
          rw [retry_sleeps_shift]
          have hma : j + 1 - (attempt + 1) + 1 = j + 1 - attempt := by omega
          rw [hma]
      · rename_i hoc
        rw [if_pos hltm]
        rw [ih (attempt + 1) (cd * b) (sl ++ [cd]) (some .netError)
          (by omega) (by omega) (by omega) (fun i hi1 hi2 => h4 i (by omega) hi2)]
        rw [retry_sleeps_shift]
        have hma : j + 1 - (attempt + 1) + 1 = j + 1 - attempt := by omega
        rw [hma]
      · rename_i hoc
        rw [hoc] at hretry
        simp [retryableFailure] at hretry

/-- C3: a failure classified as retryable (network error, HTTP 5xx or 429)
is retried after sleeping delay times backoff to the power of the attempt
index minus one, up to maxAttempts total attempts with the last failure
re-raised on exhaustion; a success after retryable failures returns with
the delays slept so far; every terminal failure (any other HTTP status or
a decode-style exception) raises on the first attempt with no retry. -/
theorem C3_retry_classification {α : Type} (m : ℕ) (d b : ℚ)
    (oc : ℕ → ApiOutcome α) (hm : 1 ≤ m) :
    ((∀ i, 1 ≤ i → i ≤ m → retryableFailure (oc i) = true) →
      async_retry m d b oc =
        ⟨.raised (oc m), m, (List.range (m - 1)).map (fun k => d * b ^ k)⟩) ∧
    (terminalFailure (oc 1) = true →
      async_retry m d b oc = ⟨.raised (oc 1), 1, []⟩) ∧
    (∀ j v, j + 1 ≤ m → oc (j + 1) = .success v →
      (∀ i, 1 ≤ i → i ≤ j → retryableFailure (oc i) = true) →
      async_retry m d b oc =
        ⟨.ok v, j + 1, (List.range j).map (fun k => d * b ^ k)⟩) := by
  refine ⟨?_, ?_, ?_⟩
  · intro hall
    unfold async_retry
    rw [asyncRetryLoop_exhaust m b oc m 1 d [] none (by omega) le_rfl hm hall]
    simp
  · intro hterm
    obtain ⟨r, rfl⟩ : ∃ r, m = r + 1 := ⟨m - 1, by omega⟩
    unfold async_retry asyncRetryLoop
    split
    · rename_i v hoc
      rw [hoc] at hterm
      simp [terminalFailure] at hterm
    · rename_i code hoc
      rw [hoc] at hterm
      simp only [terminalFailure, Bool.and_eq_true, decide_eq_true_eq] at hterm
      rw [if_neg (by omega : ¬ 500 ≤ code), if_neg hterm.2, hoc]
    · rename_i hoc
      rw [hoc] at hterm
      simp [terminalFailure] at hterm
    · rename_i hoc
      rw [hoc]
  · intro j v hjm hsucc hall
    unfold async_retry
    rw [asyncRetryLoop_success_spec m b oc j v hsucc hjm m 1 d [] none
      (by omega) le_rfl (by omega) hall]
    simp

/-- C3 witness: a constant 503 exhausts three attempts with sleeps 1 and 2
and re-raises; a 404 raises on the first attempt with no sleep. -/
theorem C3_retry_classification_witness :
    async_retry 3 1 2 (fun _ => (ApiOutcome.httpStatus 503 : ApiOutcome ℕ)) =
      ⟨.raised (.httpStatus 503), 3, [1, 2]⟩ ∧
    async_retry 3 1 2 (fun _ => (ApiOutcome.httpStatus 404 : ApiOutcome ℕ)) =
      ⟨.raised (.httpStatus 404), 1, []⟩ := by
  constructor
  · have h := (C3_retry_classification 3 1 2
      (fun _ => (ApiOutcome.httpStatus 503 : ApiOutcome ℕ)) (by decide)).1
      (fun i h1 h2 => by decide)
    exact h.trans (by decide)
  · exact (C3_retry_classification 3 1 2
      (fun _ => (ApiOutcome.httpStatus 404 : ApiOutcome ℕ)) (by decide)).2.1 (by decide)

lemma process_preserves_sync (now : ℚ) (tid : ℤ) (item : ItemSummary)
    (cat : Option ℤ) (dr : DetailResponse) (ar : List AtlasResponse)
    (sess : Session) (h : sess.pending = sess.committed) :
    (process_single_product now tid item cat dr ar sess).sess.pending =
      (process_single_product now tid item cat dr ar sess).sess.committed := by
  unfold process_single_product
  split
  · exact h
  · split
    · exact h
    · split
      · exact h
      · split <;> rfl

lemma runItemStep_sync (now : ℚ) (tid : ℤ) (sess : Session) (step : ItemStep)
    (h : sess.pending = sess.committed) :
    (runItemStep now tid sess step).1.pending =
      (runItemStep now tid sess step).1.committed := by
  cases step with
  | ok item cat dr ar => exact process_preserves_sync now tid item cat dr ar sess h
  | err w => rfl

lemma runItemStep_err (now : ℚ) (tid : ℤ) (sess : Session)
    (h : sess.pending = sess.committed) (w : DBState → DBState) :
    runItemStep now tid sess (.err w) = (sess, []) := by
  cases sess with
  | mk c p =>
    dsimp only at h
    subst h
    rfl

lemma processPageItems_cons (now : ℚ) (tid : ℤ) (s : ItemStep)
    (rest : List ItemStep) (sess : Session) :
    processPageItems now tid (s :: rest) sess =
      ((processPageItems now tid rest (runItemStep now tid sess s).1).1,
       (runItemStep now tid sess s).2 ++
         (processPageItems now tid rest (runItemStep now tid sess s).1).2) := rfl

lemma processPageItems_skip_err (now : ℚ) (tid : ℤ) (w : DBState → DBState)
    (post : List ItemStep) :
    ∀ (pre : List ItemStep) (sess : Session), sess.pending = sess.committed →
      processPageItems now tid (pre ++ .err w :: post) sess =
        processPageItems now tid (pre ++ post) sess := by
  intro pre
  induction pre with
  | nil =>
    intro sess h
    show processPageItems now tid (.err w :: post) sess =
      processPageItems now tid post sess
    rw [processPageItems_cons, runItemStep_err now tid sess h w]
    simp
  | cons s rest ih =>
    intro sess h
    show processPageItems now tid (s :: (rest ++ .err w :: post)) sess =
      processPageItems now tid (s :: (rest ++ post)) sess
    rw [processPageItems_cons, processPageItems_cons,
      ih _ (runItemStep_sync now tid sess s h)]

lemma runPages_cons (now : ℚ) (tid : ℤ) (pg : List ItemStep)
    (rest : List (List ItemStep)) (db : DBState) :
    runPages now tid (pg :: rest) db =
      ((runPages now tid rest
          (processPageItems now tid pg ⟨db, db⟩).1.committed).1,
       (processPageItems now tid pg ⟨db, db⟩).2 ++
         (runPages now tid rest
            (processPageItems now tid pg ⟨db, db⟩).1.committed).2) := rfl

/-- C9: an item whose processing raises — after any partial uncommitted
writes, which the handler rolls back — is skipped, and the page run and the
whole multi-page run produce exactly the state and events they would have
produced without that item: the remaining items of the page and all later
pages are still processed, and nothing aborts. -/
theorem C9_item_failure_isolated (now : ℚ) (tid : ℤ)
    (pages1 pages2 : List (List ItemStep)) (pre post : List ItemStep)
    (w : DBState → DBState) (db : DBState) :
    runPages now tid (pages1 ++ (pre ++ .err w :: post) :: pages2) db =
      runPages now tid (pages1 ++ (pre ++ post) :: pages2) db := by
  induction pages1 generalizing db with
  | nil =>
    show runPages now tid ((pre ++ .err w :: post) :: pages2) db =
      runPages now tid ((pre ++ post) :: pages2) db
    rw [runPages_cons, runPages_cons,
      processPageItems_skip_err now tid w post pre ⟨db, db⟩ rfl]
  | cons pg rest ih =>
    show runPages now tid (pg :: (rest ++ (pre ++ .err w :: post) :: pages2)) db =
      runPages now tid (pg :: (rest ++ (pre ++ post) :: pages2)) db
    rw [runPages_cons, runPages_cons, ih]

lemma check_not_exists {now : ℚ} {fid : ℤ} {lq : Option ℚ} {qc : ℕ}
    {products : List ProductRow} (hno : findProduct fid products = none) :
    check_and_update_existing_product now fid lq qc products =
      (products, none, .not_exists) := by
  unfold check_and_update_existing_product
  rw [hno]

/-- The QC-refresh mutation of the found row in the exists_updated branch. -/
def refreshedRow (now : ℚ) (qc : ℕ) (t : ℚ) (p0 : ProductRow) : ProductRow :=
  { p0 with last_qc_time := some t, qc_count_30days := qc, last_update := some now }

lemma check_found_fresh {now : ℚ} {fid : ℤ} {t : ℚ} {qc : ℕ}
    {products : List ProductRow} {p0 : ProductRow}
    (hfound : findProduct fid products = some p0)
    (hfresh : now - thirtyDays ≤ t) :
    check_and_update_existing_product now fid (some t) qc products =
      (updateProductRow fid (refreshedRow now qc t p0) products,
       some (refreshedRow now qc t p0), .exists_updated) := by
  unfold check_and_update_existing_product refreshedRow
  rw [hfound]
  simp only [if_pos hfresh]

lemma process_creates {now : ℚ} {tid fid : ℤ} {item : ItemSummary}
    {cat : Option ℤ} {dr : DetailResponse} {ar : List AtlasResponse}
    {sess : Session} {pd : ProductData}
    (hid : item.id = some fid) (hfid : fid ≠ 0)
    (hitem : item.itemId ≠ "") (hmall : item.mallType ≠ "")
    (hprep : prepare_product_data now fid item.itemId item.mallType cat dr ar =
      (some pd, true))
    (hno : findProduct fid sess.pending.products = none) :
    process_single_product now tid item cat dr ar sess =
      ⟨⟨(create_task_record now fid tid 0
           (save_or_update_product now pd tid sess.pending).1).1,
        (create_task_record now fid tid 0
           (save_or_update_product now pd tid sess.pending).1).1⟩,
       [⟨tid, fid, (save_or_update_product now pd tid sess.pending).2.id,
         item.itemId, item.mallType⟩],
       [.flush, .flush, .commit, .publish fid], some .not_exists⟩ := by
  unfold process_single_product
  split
  · rename_i heq
    rw [hid] at heq
    exact absurd heq (by simp)
  · rename_i fid2 heq
    rw [hid] at heq
    injection heq with heq
    subst heq
    rw [if_neg (by simp [hfid, hitem, hmall])]
    split
    · rename_i snd heq2
      rw [hprep] at heq2
      exact absurd heq2 (by simp)
    · rename_i pd2 snd heq2
      rw [hprep] at heq2
      injection heq2 with heq2a heq2b
      injection heq2a with heq2a
      subst heq2a
      split
      · rename_i products2 po heq3
        rw [check_not_exists hno] at heq3
        exact absurd heq3 (by simp)
      · rename_i products2 po heq3
        rw [check_not_exists hno] at heq3
        exact absurd heq3 (by simp)
      · rfl

lemma process_updates {now : ℚ} {tid fid : ℤ} {t : ℚ} {item : ItemSummary}
    {cat : Option ℤ} {dr : DetailResponse} {ar : List AtlasResponse}
    {sess : Session} {pd : ProductData} {p0 : ProductRow}
    (hid : item.id = some fid) (hfid : fid ≠ 0)
    (hitem : item.itemId ≠ "") (hmall : item.mallType ≠ "")
    (hprep : prepare_product_data now fid item.itemId item.mallType cat dr ar =
      (some pd, true))
    (hfound : findProduct fid sess.pending.products = some p0)
    (ht : pd.last_qc_time = some t) (hfresh : now - thirtyDays ≤ t) :
    process_single_product now tid item cat dr ar sess =
      ⟨Session.commit ⟨sess.committed,
          { sess.pending with
              products := updateProductRow fid
                  (refreshedRow now pd.qc_count_30days t p0)
                  sess.pending.products }⟩,
       [], [.flush, .commit], some .exists_updated⟩ := by
  unfold process_single_product
  split
  · rename_i heq
    rw [hid] at heq
    exact absurd heq (by simp)
  · rename_i fid2 heq
    rw [hid] at heq
    injection heq with heq
    subst heq
    rw [if_neg (by simp [hfid, hitem, hmall])]
    split
    · rename_i snd heq2
      rw [hprep] at heq2
      exact absurd heq2 (by simp)
    · rename_i pd2 snd heq2
      rw [hprep] at heq2
      injection heq2 with heq2a heq2b
      injection heq2a with heq2a
      subst heq2a
      split
      · rename_i products2 po heq3
        rw [ht, check_found_fresh hfound hfresh] at heq3
        exact absurd heq3 (by simp)
      · rename_i products2 po heq3
        rw [ht, check_found_fresh hfound hfresh] at heq3
        injection heq3 with heq3a heq3b
        subst heq3a
        rfl
      · rename_i products2 po heq3
        rw [ht, check_found_fresh hfound hfresh] at heq3
        exact absurd heq3 (by simp)

lemma refreshedRow_self (now : ℚ) (qc : ℕ) (t : ℚ) (p : ProductRow)
    (h1 : p.last_qc_time = some t) (h2 : p.qc_count_30days = qc)
    (h3 : p.last_update = some now) : refreshedRow now qc t p = p := by
  unfold refreshedRow
  rw [← h1, ← h2, ← h3]

/-- C1: ingesting the same eligible upstream payload twice for a findqc_id
absent from storage yields exactly one Product row and exactly one
TaskProduct row for it, the second ingestion returns the very same stored
session and emits no event, the first emits exactly one, and every further
re-ingestion is the identity on the stored state, so at most one creation
event is ever emitted for the findqc_id. -/
theorem C1_idempotent_upsert (now : ℚ) (tid fid : ℤ) (item : ItemSummary)
    (cat : Option ℤ) (dr : DetailResponse) (ar : List AtlasResponse)
    (sess : Session) (pd : ProductData)
    (hid : item.id = some fid) (hfid : fid ≠ 0)
    (hitem : item.itemId ≠ "") (hmall : item.mallType ≠ "")
    (hno : findProduct fid sess.pending.products = none)
    (hnotask : ∀ tk ∈ sess.pending.tasks, ¬ (tk.findqc_id == fid) = true)
    (hprep : prepare_product_data now fid item.itemId item.mallType cat dr ar =
      (some pd, true)) :
    (((process_single_product now tid item cat dr ar sess).sess.committed.products.filter
        (fun r => r.findqc_id == fid)).length = 1) ∧
    (((process_single_product now tid item cat dr ar sess).sess.committed.tasks.filter
        (fun tk => tk.findqc_id == fid)).length = 1) ∧
    (process_single_product now tid item cat dr ar
        (process_single_product now tid item cat dr ar sess).sess).sess =
      (process_single_product now tid item cat dr ar sess).sess ∧
    (process_single_product now tid item cat dr ar
        (process_single_product now tid item cat dr ar sess).sess).events = [] ∧
    (process_single_product now tid item cat dr ar sess).events.length = 1 ∧
    ∀ n : ℕ, (fun s => (process_single_product now tid item cat dr ar s).sess)^[n]
        (process_single_product now tid item cat dr ar sess).sess =
      (process_single_product now tid item cat dr ar sess).sess := by
  obtain ⟨hpd, -, hsv⟩ := prepare_some_inv hprep
  obtain ⟨himg, t, hlast, hfresh⟩ := shouldSave_true_inv hsv
  have hpdlast : pd.last_qc_time = some t := by rw [hpd]; exact hlast
  have hpdfid : pd.findqc_id = fid := by rw [hpd]; rfl
  have hr1 := @process_creates now tid fid item cat dr ar sess pd hid hfid hitem hmall hprep hno
  rw [hr1]
  dsimp only [create_task_record, save_or_update_product]
  set row : ProductRow :=
    { id := sess.pending.products.length + 1, findqc_id := pd.findqc_id,
      itemId := pd.itemId, mallType := pd.mallType, categoryId := pd.categoryId,
      price := pd.price, weight := pd.weight, image_urls := pd.image_urls,
      last_qc_time := pd.last_qc_time, qc_count_30days := pd.qc_count_30days,
      update_task_id := some tid, last_update := some now,
      status := pd.status } with hrowdef
  set task : TaskRow :=
    { id := sess.pending.tasks.length + 1, findqc_id := fid,
      update_task_id := tid, status := 0, created_at := now } with htaskdef
  have hrowfid : (row.findqc_id == fid) = true := by
    show (pd.findqc_id == fid) = true
    simp [hpdfid]
  have hnone2 : ∀ x ∈ sess.pending.products, ¬ ((x.findqc_id == fid) = true) :=
    List.find?_eq_none.mp hno
  have hfilp : List.filter (fun r => r.findqc_id == fid)
      (sess.pending.products ++ [row]) = [row] := by
    rw [List.filter_append, List.filter_eq_nil_iff.mpr hnone2]
    simp [hrowfid]
  have htaskfid : (task.findqc_id == fid) = true := by
    show (fid == fid) = true
    simp
  have hfilt : List.filter (fun tk => tk.findqc_id == fid)
      (sess.pending.tasks ++ [task]) = [task] := by
    rw [List.filter_append, List.filter_eq_nil_iff.mpr hnotask]
    simp [htaskfid]
  have hfound2 : findProduct fid (sess.pending.products ++ [row]) = some row := by
    unfold findProduct
    rw [List.find?_append]
    rw [show List.find? (fun r => r.findqc_id == fid) sess.pending.products = none from hno]
    simp [List.find?, hrowfid]
  have hr2 := @process_updates now tid fid t item cat dr ar
    ⟨⟨sess.pending.products ++ [row], sess.pending.tasks ++ [task]⟩,
     ⟨sess.pending.products ++ [row], sess.pending.tasks ++ [task]⟩⟩ pd row
    hid hfid hitem hmall hprep hfound2 hpdlast hfresh
  have hrref : refreshedRow now pd.qc_count_30days t row = row :=
    refreshedRow_self now pd.qc_count_30days t row hpdlast rfl rfl
  dsimp only at hr2
  rw [hrref] at hr2
  have hupd : updateProductRow fid row (sess.pending.products ++ [row]) =
      sess.pending.products ++ [row] := by
    unfold updateProductRow
    apply map_id_of_mem
    intro x hx
    rcases List.mem_append.mp hx with hx | hx
    · rw [if_neg (hnone2 x hx)]
    · rw [List.mem_singleton] at hx
      subst hx
      split <;> rfl
  rw [hupd] at hr2
  refine ⟨?_, ?_, ?_, ?_, ?_, ?_⟩
  · rw [hfilp]
    rfl
  · rw [hfilt]
    rfl
  · rw [hr2]
    rfl
  · rw [hr2]
  · rfl
  · intro n
    have hfix : (fun s => (process_single_product now tid item cat dr ar s).sess)
        (⟨⟨sess.pending.products ++ [row], sess.pending.tasks ++ [task]⟩,
          ⟨sess.pending.products ++ [row], sess.pending.tasks ++ [task]⟩⟩ : Session) =
        ⟨⟨sess.pending.products ++ [row], sess.pending.tasks ++ [task]⟩,
          ⟨sess.pending.products ++ [row], sess.pending.tasks ++ [task]⟩⟩ := by
      show (process_single_product now tid item cat dr ar _).sess = _
      rw [hr2]
      rfl
    exact Function.iterate_fixed hfix n


lemma process_skip_id_none (now : ℚ) (tid : ℤ) {item : ItemSummary}
    (cat : Option ℤ) (dr : DetailResponse) (ar : List AtlasResponse)
    (sess : Session) (hi : item.id = none) :
    process_single_product now tid item cat dr ar sess = ⟨sess, [], [], none⟩ := by
  unfold process_single_product
  split
  · rfl
  · rename_i fid2 heq
    rw [hi] at heq
    exact absurd heq (by simp)

lemma process_skip_guard (now : ℚ) (tid : ℤ) {item : ItemSummary}
    (cat : Option ℤ) (dr : DetailResponse) (ar : List AtlasResponse)
    (sess : Session) {fid : ℤ} (hi : item.id = some fid)
    (hg : fid = 0 ∨ item.itemId = "" ∨ item.mallType = "") :
    process_single_product now tid item cat dr ar sess = ⟨sess, [], [], none⟩ := by
  unfold process_single_product
  split
  · rfl
  · rename_i fid2 heq
    rw [hi] at heq
    injection heq with heq
    subst heq
    rw [if_pos hg]

lemma process_cases (now : ℚ) (tid : ℤ) (item : ItemSummary) (cat : Option ℤ)
    (dr : DetailResponse) (ar : List AtlasResponse) (sess : Session) :
    process_single_product now tid item cat dr ar sess = ⟨sess, [], [], none⟩ ∨
    ∃ fid pd, item.id = some fid ∧ fid ≠ 0 ∧ item.itemId ≠ "" ∧ item.mallType ≠ "" ∧
      prepare_product_data now fid item.itemId item.mallType cat dr ar =
        (some pd, true) ∧
      pd.status = 0 ∧
      ((findProduct fid sess.pending.products = none ∧
        process_single_product now tid item cat dr ar sess =
          ⟨⟨(create_task_record now fid tid 0
               (save_or_update_product now pd tid sess.pending).1).1,
            (create_task_record now fid tid 0
               (save_or_update_product now pd tid sess.pending).1).1⟩,
           [⟨tid, fid, (save_or_update_product now pd tid sess.pending).2.id,
             item.itemId, item.mallType⟩],
           [.flush, .flush, .commit, .publish fid], some .not_exists⟩) ∨
       (∃ p0 t, findProduct fid sess.pending.products = some p0 ∧
         pd.last_qc_time = some t ∧ now - thirtyDays ≤ t ∧
         process_single_product now tid item cat dr ar sess =
           ⟨Session.commit ⟨sess.committed,
               { sess.pending with
                   products := updateProductRow fid
                       (refreshedRow now pd.qc_count_30days t p0)
                       sess.pending.products }⟩,
            [], [.flush, .commit], some .exists_updated⟩)) := by
  cases hi : item.id with
  | none => exact Or.inl (process_skip_id_none now tid cat dr ar sess hi)
  | some fid =>
    by_cases hg : fid = 0 ∨ item.itemId = "" ∨ item.mallType = ""
    · exact Or.inl (process_skip_guard now tid cat dr ar sess hi hg)
    · push_neg at hg
      obtain ⟨hfid, hitem, hmall⟩ := hg
      by_cases hsv : shouldSave now dr.detailData ar = true
      · have hprep : prepare_product_data now fid item.itemId item.mallType cat dr ar =
            (some (buildProductData now fid item.itemId item.mallType cat
              dr.detailData ar), true) := by
          unfold prepare_product_data
          simp [hsv]
        obtain ⟨-, t, hlast, hfresh⟩ := shouldSave_true_inv hsv
        have hpdlast : (buildProductData now fid item.itemId item.mallType cat
            dr.detailData ar).last_qc_time = some t := hlast
        right
        refine ⟨fid, _, rfl, hfid, hitem, hmall, hprep, rfl, ?_⟩
        cases hfp : findProduct fid sess.pending.products with
        | none => exact Or.inl ⟨rfl, process_creates hi hfid hitem hmall hprep hfp⟩
        | some p0 =>
          exact Or.inr ⟨p0, t, rfl, hpdlast, hfresh,
            process_updates hi hfid hitem hmall hprep hfp hpdlast hfresh⟩
      · have hnot : shouldSave now dr.detailData ar = false := by
          simpa using hsv
        exact Or.inl (process_skip_of_gate hnot)

/-- C7: only the creation path (findqc_id not found) touches the task
table or publishes: on every other path the task rows and events are
unchanged and empty; the creation path appends one Active product row and
one Pending task row, commits, emits exactly one event, and its trace
places the publish action strictly after the commit, as does every trace
the function can produce. -/
theorem C7_only_creation_emits (now : ℚ) (tid : ℤ)
    (item : ItemSummary) (cat : Option ℤ) (dr : DetailResponse)
    (ar : List AtlasResponse) (sess : Session)
    (hsync : sess.pending = sess.committed) :
    ((process_single_product now tid item cat dr ar sess).op ≠ some .not_exists →
      (process_single_product now tid item cat dr ar sess).sess.pending.tasks =
        sess.pending.tasks ∧
      (process_single_product now tid item cat dr ar sess).sess.committed.tasks =
        sess.pending.tasks ∧
      (process_single_product now tid item cat dr ar sess).events = []) ∧
    ((process_single_product now tid item cat dr ar sess).op = some .not_exists →
      ∃ fid pd row tk,
        item.id = some fid ∧
        prepare_product_data now fid item.itemId item.mallType cat dr ar =
          (some pd, true) ∧
        (process_single_product now tid item cat dr ar sess).sess.pending =
          ⟨sess.pending.products ++ [row], sess.pending.tasks ++ [tk]⟩ ∧
        row.status = 0 ∧ tk.status = 0 ∧
        (process_single_product now tid item cat dr ar sess).sess.committed =
          (process_single_product now tid item cat dr ar sess).sess.pending ∧
        (process_single_product now tid item cat dr ar sess).events.length = 1 ∧
        (process_single_product now tid item cat dr ar sess).trace =
          [.flush, .flush, .commit, .publish fid]) ∧
    (∀ k f, (process_single_product now tid item cat dr ar sess).trace.get? k =
        some (.publish f) →
      ∃ j, j < k ∧
        (process_single_product now tid item cat dr ar sess).trace.get? j =
          some .commit) := by
  rcases process_cases now tid item cat dr ar sess with hp |
    ⟨fid, pd, hi, hfid, hitem, hmall, hprep, hpdstatus, hcase⟩
  · rw [hp]
    refine ⟨fun _ => ⟨rfl, ?_, rfl⟩, fun h => absurd h (by simp), ?_⟩
    · show sess.committed.tasks = sess.pending.tasks
      rw [hsync]
    · intro k f hk
      simp [List.get?] at hk
  · rcases hcase with ⟨hfp, hp⟩ | ⟨p0, t, hfp, hlast, hfresh, hp⟩
    · rw [hp]
      refine ⟨fun hop => absurd rfl hop, fun _ => ?_, ?_⟩
      · refine ⟨fid, pd, (save_or_update_product now pd tid sess.pending).2,
          (create_task_record now fid tid 0
            (save_or_update_product now pd tid sess.pending).1).2,
          hi, hprep, ?_, ?_, ?_, ?_, ?_, ?_⟩
        · rfl
        · exact hpdstatus
        · rfl
        · rfl
        · rfl
        · rfl
      · intro k f hk
        rcases k with - | k
        · simp [List.get?] at hk
        rcases k with - | k
        · simp [List.get?] at hk
        rcases k with - | k
        · simp [List.get?] at hk
        rcases k with - | k
        · exact ⟨2, by omega, rfl⟩
        · simp [List.get?] at hk
    · rw [hp]
      refine ⟨fun _ => ⟨rfl, rfl, rfl⟩, fun hop => absurd hop (by simp), ?_⟩
      intro k f hk
      rcases k with - | k
      · simp [List.get?] at hk
      rcases k with - | k
      · simp [List.get?] at hk
      · simp [List.get?] at hk


/-- C1 witness: a concrete first-sighting payload, checked on the first
conjunct (exactly one stored Product row for the findqc_id). -/
theorem C1_idempotent_upsert_witness :
    ((process_single_product 8640000 7 ⟨some 5, "i", "m"⟩ none
        ⟨{ price := none, weight := none, picList := [], propsList := [],
           qcList := [{ url := some "u", time := some 8640000 }] }⟩ []
        ⟨⟨[], []⟩, ⟨[], []⟩⟩).sess.committed.products.filter
      (fun r => r.findqc_id == 5)).length = 1 :=
  (C1_idempotent_upsert 8640000 7 5 ⟨some 5, "i", "m"⟩ none
    ⟨{ price := none, weight := none, picList := [], propsList := [],
       qcList := [{ url := some "u", time := some 8640000 }] }⟩ []
    ⟨⟨[], []⟩, ⟨[], []⟩⟩
    (buildProductData 8640000 5 "i" "m" none
      { price := none, weight := none, picList := [], propsList := [],
        qcList := [{ url := some "u", time := some 8640000 }] } [])
    rfl (by decide) (by decide) (by decide) rfl
    (fun tk htk => absurd htk (by simp)) (by decide)).1

/-- C7 witness: on the update path of a concrete stored product the
function emits no event. -/
theorem C7_only_creation_emits_witness :
    (process_single_product 8640000 7 ⟨some 6, "i", "m"⟩ none
      ⟨{ price := none, weight := none, picList := [], propsList := [],
         qcList := [{ url := some "u", time := some 8640000 }] }⟩ []
      ⟨⟨[⟨1, 6, "i", "m", none, none, none, ⟨["u"], [], []⟩, some 8640000, 1,
          some 7, some 8640000, 0⟩], []⟩,
        ⟨[⟨1, 6, "i", "m", none, none, none, ⟨["u"], [], []⟩, some 8640000, 1,
          some 7, some 8640000, 0⟩], []⟩⟩).events = [] :=
  ((C7_only_creation_emits 8640000 7 ⟨some 6, "i", "m"⟩ none
    ⟨{ price := none, weight := none, picList := [], propsList := [],
       qcList := [{ url := some "u", time := some 8640000 }] }⟩ []
    ⟨⟨[⟨1, 6, "i", "m", none, none, none, ⟨["u"], [], []⟩, some 8640000, 1,
        some 7, some 8640000, 0⟩], []⟩,
      ⟨[⟨1, 6, "i", "m", none, none, none, ⟨["u"], [], []⟩, some 8640000, 1,
        some 7, some 8640000, 0⟩], []⟩⟩ rfl).1 (by decide)).2.2

end FindQC
